import Mathlib

/-!
Verification development for the go-fanbox downloader.

The Go sources are shallowly embedded: the filesystem is an association
list from paths to file contents, the network is an association list from
URLs to response bodies, and the attachment-download goroutines are
modelled by an explicit list of dispatched tasks whose completions are
applied to the filesystem after the page walk (the scheduler imposes no
ordering between them).  `os.MkdirAll` is modelled as an infallible no-op
on the file map; created directories are recorded in a separate list.
-/

namespace Fanbox

/-! ## Filesystem model -/

/-- A filesystem: association list from absolute path to file content. -/
abbrev FS := List (String × String)

/-- Look a path up in the filesystem. -/
def lookupFS : FS → String → Option String
  | [], _ => none
  | (k, v) :: rest, p => if k = p then some v else lookupFS rest p

/-- Create or overwrite the file at path `p` with content `v`. -/
def setFS : FS → String → String → FS
  | [], p, v => [(p, v)]
  | (k, w) :: rest, p, v => if k = p then (k, v) :: rest else (k, w) :: setFS rest p v

/-- Remove the file at path `p` (`os.Remove`). -/
def eraseFS : FS → String → FS
  | [], _ => []
  | (k, w) :: rest, p => if k = p then eraseFS rest p else (k, w) :: eraseFS rest p

/-- Model of `os.Stat` succeeding: the path exists. -/
def presentFS (fs : FS) (p : String) : Bool := (lookupFS fs p).isSome

/-- Model of `filepath.Join dir name` for the simple two-component case used here. -/
def joinPath (dir name : String) : String := dir ++ "/" ++ name

/-! ## String helpers from the source -/

/-- Model of `filepath.Base`: strip trailing slashes, then take the last
path component; `""` gives `"."` and an all-slash path gives `"/"`. -/
def baseName (s : String) : String :=
  if s = "" then "." else
    let t : List Char := (s.data.reverse.dropWhile (fun c => c = '/')).reverse
    if t = [] then "/" else
      ⟨(t.reverse.takeWhile (fun c => c ≠ '/')).reverse⟩

/-- One character under `sanitizer = strings.NewReplacer("/", " ∕ ", "\x00", "")`:
`'/'` becomes the three characters space, U+2215 division slash, space;
the null byte is deleted; everything else is kept. -/
def sanitizeChar (c : Char) : List Char :=
  if c = '/' then [' ', '∕', ' ']
  else if c = Char.ofNat 0 then []
  else [c]

/-- Function `sanitizePath` from the source: apply the replacer to the whole string. -/
def sanitizePath (part : String) : String := ⟨part.data.flatMap sanitizeChar⟩

/-! ## Content model (fanbox package) -/

/-- Model of `fanbox.Image`; only the fields the downloader reads are kept. -/
structure Image where
  id : String
  extension : String
  originalURL : String
  deriving Repr, DecidableEq

/-- Model of `fanbox.File`; only the fields the downloader reads are kept. -/
structure FileAttachment where
  extension : String
  name : String
  url : String
  deriving Repr, DecidableEq

/-- Model of `fanbox.ArticleBodyBlock`. -/
structure ArticleBodyBlock where
  type : String
  text : String
  imageID : String
  deriving Repr, DecidableEq

/-- The `fanbox.ItemBody` interface: a closed union over the three
concrete body types `ArticleBody`, `ImageBody` and `FileBody`. -/
inductive ItemBody where
  | article (blocks : List ArticleBodyBlock) (imageMap : List (String × Image))
  | image (text : String) (images : List Image)
  | file (files : List FileAttachment) (text : String)
  deriving Repr, DecidableEq

/-- Model of `fanbox.ItemBase`; the `publishedDate` field carries
`time.Time(PublishedDateTime).Format("2006-01-02")` already applied,
since the time library is external to the embedding. -/
structure ItemBase where
  id : String
  title : String
  type : String
  creatorID : String
  publishedDate : String
  deriving Repr, DecidableEq

/-- Model of `fanbox.Item`: base fields plus the decoded body.  A `none` body is
what `Item.UnmarshalJSON` leaves behind for an unrecognized type tag. -/
structure Item where
  base : ItemBase
  body : Option ItemBody
  deriving Repr, DecidableEq

/-- Model of `ItemBase.URL`: direct URL of the post (`url.PathEscape` on the
creator id is modelled as the identity; the ids in play are unreserved). -/
def Item.url (i : Item) : String :=
  "https://www.fanbox.cc" ++ "/@" ++ i.base.creatorID ++ "/posts/" ++ i.base.id

/-- Model of `fanbox.PageBody`. -/
structure PageBody where
  items : List Item
  nextURL : String
  deriving Repr, DecidableEq

/-- Model of `fanbox.Page`. -/
structure Page where
  body : PageBody
  deriving Repr, DecidableEq

/-! ## Item decoding (`Item.UnmarshalJSON`) -/

/-- The raw JSON of an item's `body` field, abstracted as the outcome of
attempting to parse it as each concrete shape. -/
structure RawBody where
  asArticle : Except String (List ArticleBodyBlock × List (String × Image))
  asImage : Except String (String × List Image)
  asFile : Except String (List FileAttachment × String)

/-- The `switch i.Type` of `Item.UnmarshalJSON` continued with the second
`json.Unmarshal`: a recognized tag parses the body as that variant and
fails if that parse fails; any other tag is logged and yields no body
with a `nil` error. -/
def decodeItemBody (tag : String) (raw : RawBody) : Except String (Option ItemBody) :=
  match tag with
  | "article" =>
    match raw.asArticle with
    | .error e => .error ("failed to unmarshal into item of exact type: " ++ e)
    | .ok (blocks, imageMap) => .ok (some (.article blocks imageMap))
  | "image" =>
    match raw.asImage with
    | .error e => .error ("failed to unmarshal into item of exact type: " ++ e)
    | .ok (text, images) => .ok (some (.image text images))
  | "file" =>
    match raw.asFile with
    | .error e => .error ("failed to unmarshal into item of exact type: " ++ e)
    | .ok (files, text) => .ok (some (.file files text))
  | _ => .ok none

/-- Model of `Item.UnmarshalJSON`: unmarshal the base, then dispatch on the tag. -/
def Item.unmarshal (baseParse : Except String ItemBase) (raw : RawBody) :
    Except String Item :=
  match baseParse with
  | .error e => .error ("failed to unmarshal item base: " ++ e)
  | .ok base =>
    match decodeItemBody base.type raw with
    | .error e => .error e
    | .ok body => .ok ⟨base, body⟩

/-! ## Configuration -/

/-- Model of `main.Config`; `MaxPageBehind` stays an `Int` because the Go field is a
plain `int` that environment input can drive to zero or below. -/
structure Config where
  destDir : String
  maxParallel : Nat
  maxRetries : Nat
  maxPageBehind : Int
  allowFileExts : List String
  deriving Repr, DecidableEq

/-- Model of `CommaWords.Include`: linear scan for an exact match. -/
def includeExt (w : List String) (word : String) : Bool :=
  match w with
  | [] => false
  | cw :: rest => if cw = word then true else includeExt rest word

/-- In `main` the weighted semaphore is constructed with
`semaphore.NewWeighted(int64(cfg.MaxRetries))`. -/
def semaCapacity (cfg : Config) : Nat := cfg.maxRetries

/-! ## Download scheduler (`app.downloadPage`) -/

/-- One dispatched download goroutine: it will fetch `url` and write the
body to `dir/name` through the atomic write protocol. -/
structure DLTask where
  dir : String
  name : String
  url : String
  deriving Repr, DecidableEq

/-- State threaded through the item loop of `downloadPage`: the filesystem,
the directories handed to `os.MkdirAll`, the download tasks dispatched so
far, and the `lastFetched` variable (zero value `false`, reassigned by
each processed item). -/
structure DPState where
  fs : FS
  mkdirs : List String
  downloads : List DLTask
  lastFetched : Bool
  deriving Repr, DecidableEq

/-- The `switch body := item.Body.(type)` of `downloadPage`: the URL list
and caption text for an item, or `none` for the `default: continue` cases
(article body or absent body). -/
def itemAttachments (cfg : Config) (it : Item) : Option (List String × String) :=
  match it.body with
  | some (.image text images) => some (images.map Image.originalURL, text)
  | some (.file files text) =>
    some ((files.filter (fun f => includeExt cfg.allowFileExts f.extension)).map
      FileAttachment.url, text)
  | _ => none

/-- The per-item directory:
`filepath.Join(destDir, sanitizePath(creatorID), "<date>: <sanitized title>")`. -/
def itemDir (cfg : Config) (it : Item) : String :=
  joinPath (joinPath cfg.destDir (sanitizePath it.base.creatorID))
    (it.base.publishedDate ++ ": " ++ sanitizePath it.base.title)

/-- The URL loop of `downloadPage`: count the URLs whose target file
already exists (`fetchedItems`) and dispatch a task for each one that
does not. -/
def collectTasks (fs : FS) (dir : String) : List String → Nat × List DLTask
  | [] => (0, [])
  | url :: rest =>
    let name := baseName url
    let ct := collectTasks fs dir rest
    if presentFS fs (joinPath dir name) then (ct.1 + 1, ct.2)
    else (ct.1, ⟨dir, name, url⟩ :: ct.2)

/-- Model of `writeText dir "info" text`: skipped when the file exists, otherwise
written through the atomic protocol (net effect: the content appears at
the destination). -/
def writeText (fs : FS) (dir file text : String) : FS :=
  if presentFS fs (joinPath dir file) then fs
  else setFS fs (joinPath dir file) text

/-- The caption written to the `info` file. -/
def infoText (it : Item) (text : String) : String := it.url ++ "\n\n" ++ text

/-- One iteration of the item loop of `downloadPage`. -/
def processItem (cfg : Config) (st : DPState) (it : Item) : DPState :=
  match itemAttachments cfg it with
  | none => st
  | some (urls, text) =>
    if urls.isEmpty then st
    else
      let dir := itemDir cfg it
      let ct := collectTasks st.fs dir urls
      { fs := writeText st.fs dir "info" (infoText it text)
        mkdirs := st.mkdirs ++ [dir]
        downloads := st.downloads ++ ct.2
        lastFetched := ct.1 == urls.length }

/-- The item loop of `downloadPage`. -/
def runItems (cfg : Config) (st : DPState) : List Item → DPState
  | [] => st
  | it :: rest => runItems cfg (processItem cfg st it) rest

/-- Model of `app.downloadPage`: walk the page's items starting from the zero
state over the given filesystem. -/
def downloadPage (cfg : Config) (fs : FS) (pg : Page) : DPState :=
  runItems cfg ⟨fs, [], [], false⟩ pg.body.items

/-- The network seen by the download goroutines: URL to body. -/
abbrev Net := List (String × String)

/-- Completion of the dispatched goroutines: a task whose URL the network
answers writes the body at its target path (via `writeTmp`, whose net
effect on success is the content appearing at the destination); a failed
download is logged and writes nothing. -/
def applyDownloads (net : Net) : List DLTask → FS → FS
  | [], fs => fs
  | d :: rest, fs =>
    match lookupFS net d.url with
    | some content => applyDownloads net rest (setFS fs (joinPath d.dir d.name) content)
    | none => applyDownloads net rest fs

/-! ## Paginator (`app.poll`) -/

/-- The listing endpoint fetched when `page == 0`. -/
def supportingURL : String := "https://api.fanbox.cc" ++ "/post.listSupporting?limit=10"

/-- Outcome of one whole `poll` run: the filesystem after the
synchronous writes, the download tasks dispatched across all pages, and
how many listing fetches were performed. -/
structure PollResult where
  fs : FS
  downloads : List DLTask
  pagesFetched : Nat
  deriving Repr, DecidableEq

/-- The `PageLoop` of `app.poll`.  `fuel` is the remaining number of
iterations allowed by `page < c.MaxPageBehind`; `src` is `some url` when
the next iteration has a page to fetch (the supporting endpoint for page
0, the previous page's `nextUrl` otherwise) and `none` when the previous
page had no `nextUrl` (`break PageLoop`). -/
def pollLoop (cfg : Config) (fetch : String → Except String Page) (fetchAll : Bool) :
    Nat → Option String → FS → List DLTask → Nat → Except String PollResult
  | 0, _, fs, dls, visited => .ok ⟨fs, dls, visited⟩
  | _ + 1, none, fs, dls, visited => .ok ⟨fs, dls, visited⟩
  | fuel + 1, some url, fs, dls, visited =>
    match fetch url with
    | .error e =>
      .error ("failed to get supporting posts page " ++ toString visited ++ ": " ++ e)
    | .ok pg =>
      let st := downloadPage cfg fs pg
      if !fetchAll && st.lastFetched then .ok ⟨st.fs, dls ++ st.downloads, visited + 1⟩
      else
        pollLoop cfg fetch fetchAll fuel
          (if pg.body.nextURL = "" then none else some pg.body.nextURL)
          st.fs (dls ++ st.downloads) (visited + 1)

/-- Model of `app.poll`: walk up to `MaxPageBehind` pages starting from the
supporting-posts listing.  `os.MkdirAll` is modelled infallible, so the
only failures are listing fetches. -/
def poll (cfg : Config) (fetch : String → Except String Page) (fetchAll : Bool)
    (fs : FS) : Except String PollResult :=
  pollLoop cfg fetch fetchAll cfg.maxPageBehind.toNat (some supportingURL) fs [] 0

/-! ## Authenticated fetcher (`SessionClient.get`) -/

/-- What one executed request attempt comes back with: a transport error
from `sc.Do`, or a response carrying a status code, a body, and whether
`ioutil.ReadAll` on that body succeeds. -/
inductive AttemptResult where
  | transportError (msg : String)
  | response (status : Nat) (body : String) (readOK : Bool)
  deriving Repr, DecidableEq

/-- Result of `SessionClient.get`: the body on success, the last error
otherwise. -/
inductive GetResult where
  | ok (body : String)
  | error (msg : String)
  deriving Repr, DecidableEq

/-- The loop body of `SessionClient.get`, faithfully including the
`if true || r.StatusCode < 200 || r.StatusCode > 299` condition whose
`true ||` short-circuit makes every response take the error branch. -/
def attemptStep (res : AttemptResult) : Except String String :=
  match res with
  | .transportError m => .error ("failed to do request: " ++ m)
  | .response status body readOK =>
    if True ∨ status < 200 ∨ status > 299 then
      if readOK then
        .error ("unexpected status code " ++ toString status ++ ", body " ++ body)
      else
        .error ("unexpected status code " ++ toString status)
    else .ok body

/-- The retry loop `for i := -1; i < sc.Retries; i++`: run attempts while
fuel remains, break on the first success, and report how many attempts
were executed alongside the final result. -/
def getLoop (attempts : Nat → AttemptResult) :
    Nat → Nat → Option String → GetResult × Nat
  | 0, made, lastErr =>
    (match lastErr with
     | some e => .error e
     | none => .ok "", made)
  | fuel + 1, made, _ =>
    match attemptStep (attempts made) with
    | .ok body => (.ok body, made + 1)
    | .error e => getLoop attempts fuel (made + 1) (some e)

/-- Model of `SessionClient.get` with `Retries = retries`: the loop runs at most
`retries + 1` attempts, where attempt `i` yields `attempts i`. -/
def sessionGet (retries : Nat) (attempts : Nat → AttemptResult) : GetResult × Nat :=
  getLoop attempts (retries + 1) 0 none

/-! ## Atomic write protocol (`writeTmp`) -/

/-- The fate of `io.Copy(f, r)` into the temp file: all the bytes, or a
failure after some prefix of them. -/
inductive CopyOutcome where
  | success (content : String)
  | failure (partContent : String) (msg : String)
  deriving Repr, DecidableEq

/-- Model of `writeTmp dst tmp r`: create (truncate) the temp file, stream the body
into it; on a copy failure close and remove the temp file and return the
error; otherwise close and rename the temp file onto `dst`.
`os.Create` on the temp path is modelled as succeeding (its failure
branch writes nothing at all and returns early, touching neither path). -/
def writeTmp (fs : FS) (dst tmp : String) (r : CopyOutcome) : FS × Option String :=
  let created := setFS fs tmp ""
  match r with
  | .failure partContent msg =>
    (eraseFS (setFS created tmp partContent) tmp,
      some ("failed to download image to tmp file: " ++ msg))
  | .success content =>
    (setFS (eraseFS (setFS created tmp content) tmp) dst content, none)

/-! ## Semaphore traces -/

/-- One event on the global weighted semaphore. -/
inductive SemEvent where
  | acquire
  | release
  deriving Repr, DecidableEq

/-- Whether a trace of semaphore events is admitted by a semaphore of
capacity `cap`, starting from `cur` holders: an acquire blocks (is not
admitted) at full capacity, a release requires an outstanding holder. -/
def traceOK (cap : Nat) : Nat → List SemEvent → Bool
  | _, [] => true
  | cur, .acquire :: rest => decide (cur < cap) && traceOK cap (cur + 1) rest
  | cur, .release :: rest => decide (0 < cur) && traceOK cap (cur - 1) rest

/-- The largest number of simultaneous holders along a trace. -/
def maxInflight : Nat → List SemEvent → Nat
  | cur, [] => cur
  | cur, .acquire :: rest => max (cur + 1) (maxInflight (cur + 1) rest)
  | cur, .release :: rest => maxInflight (cur - 1) rest

/-! ## Spec-side definitions for refinement comparison -/

/-- The attachment URL list of an item, empty when the item carries none. -/
def itemAttachmentURLs (cfg : Config) (it : Item) : List String :=
  match itemAttachments cfg it with
  | none => []
  | some (urls, _) => urls

/-- Modelled from the spec: the `lastFetched` value the spec attributes to
a page, namely the completeness "computed for the page's last item alone
(all of that item's attachment files already present on disk before this
run)". -/
def specLastItemComplete (cfg : Config) (fs : FS) (pg : Page) : Bool :=
  match pg.body.items.getLast? with
  | none => true
  | some it =>
    (itemAttachmentURLs cfg it).all fun u =>
      presentFS fs (joinPath (itemDir cfg it) (baseName u))

/-- An item the scheduler actually processes: its body yields a nonempty
attachment URL list. -/
def isProcessedB (cfg : Config) (it : Item) : Bool :=
  match itemAttachments cfg it with
  | none => false
  | some (urls, _) => !urls.isEmpty

/-! ## Filesystem lemmas -/

theorem lookupFS_setFS (fs : FS) (k v p : String) :
    lookupFS (setFS fs k v) p = if k = p then some v else lookupFS fs p := by
  induction fs with
  | nil => simp [setFS, lookupFS]
  | cons hd tl ih =>
    obtain ⟨k', v'⟩ := hd
    by_cases h1 : k' = k <;> by_cases h2 : k' = p <;>
      simp [setFS, lookupFS, h1, h2, ih] <;> simp_all [lookupFS, eq_comm]

theorem lookupFS_eraseFS (fs : FS) (k p : String) :
    lookupFS (eraseFS fs k) p = if k = p then none else lookupFS fs p := by
  induction fs with
  | nil => simp [eraseFS, lookupFS]
  | cons hd tl ih =>
    obtain ⟨k', v'⟩ := hd
    by_cases h1 : k' = k <;> by_cases h2 : k' = p <;>
      simp [eraseFS, lookupFS, h1, h2, ih] <;> simp_all [lookupFS, eq_comm]

theorem presentFS_setFS_mono (fs : FS) (k v p : String) (h : presentFS fs p = true) :
    presentFS (setFS fs k v) p = true := by
  simp only [presentFS, lookupFS_setFS]
  split <;> simp_all [presentFS]

theorem presentFS_setFS_self (fs : FS) (k v : String) :
    presentFS (setFS fs k v) k = true := by
  simp [presentFS, lookupFS_setFS]

/-! ## Fetcher lemmas -/

/-- The message every attempt of the retry loop ends with: the success
branch of `attemptStep` is unreachable because of the `true ||`
short-circuit in the source's status check. -/
def attemptErrMsg : AttemptResult → String
  | .transportError m => "failed to do request: " ++ m
  | .response status body true =>
    "unexpected status code " ++ toString status ++ ", body " ++ body
  | .response status _ false => "unexpected status code " ++ toString status

theorem attemptStep_eq (res : AttemptResult) :
    attemptStep res = .error (attemptErrMsg res) := by
  cases res with
  | transportError m => rfl
  | response status body readOK => cases readOK <;> simp [attemptStep, attemptErrMsg]

theorem getLoop_exhausts (attempts : Nat → AttemptResult) :
    ∀ fuel made e0, getLoop attempts (fuel + 1) made e0 =
      (.error (attemptErrMsg (attempts (made + fuel))), made + fuel + 1) := by
  intro fuel
  induction fuel with
  | zero =>
    intro made e0
    simp [getLoop, attemptStep_eq]
  | succ n ih =>
    intro made e0
    have h1 : getLoop attempts (n + 1 + 1) made e0 =
        getLoop attempts (n + 1) (made + 1) (some (attemptErrMsg (attempts made))) := by
      simp [getLoop, attemptStep_eq]
    rw [h1, ih]
    have h2 : made + 1 + n = made + (n + 1) := by omega
    rw [h2]

/-- A failing attempt in the sense of the claims: a transport error, or a
response whose status lies outside 2xx. -/
def attemptFails : AttemptResult → Prop
  | .transportError _ => True
  | .response status _ _ => status < 200 ∨ 299 < status

/-! ## Claim theorems -/

/-- C7: with `Retries = R`, a fetch against an endpoint whose every
attempt fails executes exactly `R + 1` request attempts (the loop
`for i := -1; i < sc.Retries; i++`) and returns an error carrying the
last attempt's status code and body. -/
theorem get_retry_bound (R : Nat) (attempts : Nat → AttemptResult) (s : Nat) (b : String)
    (hfail : ∀ i, attemptFails (attempts i))
    (hlast : attempts R = .response s b true) :
    sessionGet R attempts =
      (.error ("unexpected status code " ++ toString s ++ ", body " ++ b), R + 1) := by
  unfold sessionGet
  rw [getLoop_exhausts]
  simp [hlast, attemptErrMsg]

theorem get_retry_bound_witness :
    sessionGet 2 (fun _ => .response 503 "busy" true) =
      (.error ("unexpected status code " ++ toString 503 ++ ", body " ++ "busy"), 2 + 1) :=
  get_retry_bound 2 (fun _ => .response 503 "busy" true) 503 "busy"
    (fun _ => Or.inr (by decide)) rfl

/-- C2 (code bug): because of the `if true || ...` short-circuit in
`SessionClient.get`, even a request whose attempts all return status 200
is re-issued and ends in an error carrying that status and body, instead
of returning the body with a nil error on the first 2xx response. -/
theorem get_rejects_2xx :
    sessionGet 1 (fun _ => .response 200 "ok" true) =
      (.error "unexpected status code 200, body ok", 2) := by
  decide

/-- C6: the atomic write protocol of `writeTmp` (with the temp name
distinct from the destination, as the `.tmp.`-prefixed random names are):
a copy failure removes the temp file and leaves the destination exactly
as it was, reporting the error; only a fully copied body reaches the
destination, via the final rename. -/
theorem writeTmp_atomic (fs : FS) (dst tmp : String) (r : CopyOutcome)
    (hne : tmp ≠ dst) :
    (∀ pc msg, r = .failure pc msg →
      lookupFS (writeTmp fs dst tmp r).1 dst = lookupFS fs dst ∧
      lookupFS (writeTmp fs dst tmp r).1 tmp = none ∧
      (writeTmp fs dst tmp r).2.isSome = true) ∧
    ∀ content, r = .success content →
      lookupFS (writeTmp fs dst tmp r).1 dst = some content ∧
      (writeTmp fs dst tmp r).2 = none := by
  constructor
  · rintro pc msg rfl
    refine ⟨?_, ?_, rfl⟩
    · simp [writeTmp, lookupFS_eraseFS, lookupFS_setFS, hne]
    · simp [writeTmp, lookupFS_eraseFS]
  · rintro content rfl
    refine ⟨?_, rfl⟩
    simp [writeTmp, lookupFS_setFS]

theorem writeTmp_atomic_witness :
    lookupFS (writeTmp [("d", "old")] "d" ".tmp.x" (.failure "half" "net")).1 "d" =
        lookupFS [("d", "old")] "d" ∧
      lookupFS (writeTmp [("d", "old")] "d" ".tmp.x" (.failure "half" "net")).1 ".tmp.x" =
        none := by
  have h := writeTmp_atomic [("d", "old")] "d" ".tmp.x" (.failure "half" "net") (by decide)
  exact ⟨(h.1 "half" "net" rfl).1, (h.1 "half" "net" rfl).2.1⟩

/-- C8 (counterexample): `sanitizePath` does not replace `'/'` with a
single character; the single-character input `"/"` becomes the
three-character string space, division slash, space. -/
theorem sanitizePath_slash_not_single_char :
    sanitizePath "/" = " ∕ " ∧ (sanitizePath "/").length = 3 ∧
      ¬(sanitizePath "/").length = 1 := by
  decide

/-- C8 (amended): `sanitizePath` replaces every `'/'` with the
three-character string `" ∕ "` and removes every null byte, so the result
contains no path separator and no null byte — it stays a single path
component. -/
theorem sanitizePath_single_component (s : String) :
    sanitizeChar '/' = [' ', '∕', ' '] ∧
    sanitizeChar (Char.ofNat 0) = [] ∧
    '/' ∉ (sanitizePath s).data ∧
    Char.ofNat 0 ∉ (sanitizePath s).data := by
  refine ⟨by decide, by decide, ?_, ?_⟩
  · intro h
    obtain ⟨c, _, hc⟩ := List.mem_flatMap.mp h
    by_cases h1 : c = '/' <;> by_cases h2 : c = Char.ofNat 0 <;>
      simp_all [sanitizeChar, eq_comm]
  · intro h
    obtain ⟨c, _, hc⟩ := List.mem_flatMap.mp h
    by_cases h1 : c = '/' <;> by_cases h2 : c = Char.ofNat 0 <;>
      simp_all [sanitizeChar, eq_comm]

/-- Configuration of the C1 scenario: `MaxParallel = 1` but
`MaxRetries = 4`. -/
def c1cfg : Config := ⟨"dl", 1, 4, 2, ["gif", "mp4"]⟩

/-- A page with one image item carrying two attachments. -/
def c1page : Page :=
  ⟨⟨[⟨⟨"1", "t", "image", "alice", "2021-01-01"⟩,
      some (.image "cap"
        [⟨"i1", "png", "https://x/a.png"⟩, ⟨"i2", "png", "https://x/b.png"⟩])⟩], ""⟩⟩

/-- C1 (code bug): the semaphore is sized from `MaxRetries`, not
`MaxParallel`.  With `MaxParallel = 1` and `MaxRetries = 4`, a page with
two absent attachments dispatches two download tasks, and the trace in
which both have acquired before either releases is admitted by the
program's semaphore — two downloads in flight, exceeding `MaxParallel`. -/
theorem sema_sized_from_retries :
    semaCapacity c1cfg = c1cfg.maxRetries ∧
    c1cfg.maxParallel = 1 ∧
    (downloadPage c1cfg [] c1page).downloads.length = 2 ∧
    traceOK (semaCapacity c1cfg) 0 [.acquire, .acquire] = true ∧
    maxInflight 0 [.acquire, .acquire] = 2 ∧
    traceOK c1cfg.maxParallel 0 [.acquire, .acquire] = false := by
  decide

/-- C10: with `MaxPageBehind <= 0` the `PageLoop` of `poll` never runs:
no listing fetch, no dispatched download, an unchanged filesystem, and a
nil error, for either value of `fetchAll`. -/
theorem poll_no_pages (cfg : Config) (fetch : String → Except String Page)
    (fetchAll : Bool) (fs : FS) (h : cfg.maxPageBehind ≤ 0) :
    poll cfg fetch fetchAll fs = .ok ⟨fs, [], 0⟩ := by
  unfold poll
  have h0 : cfg.maxPageBehind.toNat = 0 := by omega
  rw [h0]
  rfl

theorem poll_no_pages_witness :
    poll ⟨".", 4, 4, 0, []⟩ (fun _ => .error "down") true [] = .ok ⟨[], [], 0⟩ :=
  poll_no_pages _ _ _ _ (by decide)

/-- C4: with `fetchAll = false`, at least one page allowed, and a first
page whose `downloadPage` reports `lastFetched = true`, `poll` performs
exactly one listing fetch and stops without touching any older page. -/
theorem poll_stops_after_synced_first_page (cfg : Config)
    (fetch : String → Except String Page) (fs : FS) (pg : Page)
    (hmpb : 1 ≤ cfg.maxPageBehind)
    (hfetch : fetch supportingURL = .ok pg)
    (hlast : (downloadPage cfg fs pg).lastFetched = true) :
    poll cfg fetch false fs =
      .ok ⟨(downloadPage cfg fs pg).fs, (downloadPage cfg fs pg).downloads, 1⟩ := by
  unfold poll
  obtain ⟨k, hk⟩ : ∃ k, cfg.maxPageBehind.toNat = k + 1 :=
    ⟨cfg.maxPageBehind.toNat - 1, by omega⟩
  rw [hk]
  simp [pollLoop, hfetch, hlast]

/-- Scenario for the C4 witness: the lone attachment of the lone item is
already on disk. -/
def c4cfg : Config := ⟨"dl", 4, 4, 2, ["gif", "mp4"]⟩

/-- The one-item page of the C4 witness. -/
def c4page : Page :=
  ⟨⟨[⟨⟨"77", "t", "image", "alice", "2021-01-01"⟩,
      some (.image "cap" [⟨"i1", "png", "https://x/a.png"⟩])⟩], ""⟩⟩

/-- The filesystem of the C4 witness, already holding the attachment. -/
def c4fs : FS := [("dl/alice/2021-01-01: t/a.png", "IMG")]

theorem poll_stops_witness :
    poll c4cfg (fun u => if u = supportingURL then .ok c4page else .error "e") false c4fs =
      .ok ⟨(downloadPage c4cfg c4fs c4page).fs,
        (downloadPage c4cfg c4fs c4page).downloads, 1⟩ :=
  poll_stops_after_synced_first_page c4cfg _ c4fs c4page (by decide) (by simp) (by decide)

/-- C9: an item whose type tag is none of `article` / `image` / `file`
decodes without error into an item with no body, no attachment URLs are
collected from it, and the item loop of `downloadPage` leaves the whole
state (filesystem, created directories, dispatched downloads,
`lastFetched`) untouched for it. -/
theorem unknown_tag_no_body_skipped (cfg : Config) (st : DPState) (base : ItemBase)
    (raw : RawBody)
    (h1 : base.type ≠ "article") (h2 : base.type ≠ "image") (h3 : base.type ≠ "file") :
    decodeItemBody base.type raw = .ok none ∧
    Item.unmarshal (.ok base) raw = .ok ⟨base, none⟩ ∧
    itemAttachments cfg ⟨base, none⟩ = none ∧
    processItem cfg st ⟨base, none⟩ = st := by
  have hdec : decodeItemBody base.type raw = .ok none := by
    unfold decodeItemBody
    split
    · exact absurd ‹_› h1
    · exact absurd ‹_› h2
    · exact absurd ‹_› h3
    · rfl
  refine ⟨hdec, ?_, rfl, rfl⟩
  simp [Item.unmarshal, hdec]

theorem unknown_tag_no_body_skipped_witness :
    decodeItemBody "video" ⟨.ok ([], []), .ok ("", []), .ok ([], "")⟩ = .ok none ∧
    Item.unmarshal (.ok ⟨"9", "t", "video", "bob", "2021-01-01"⟩)
        ⟨.ok ([], []), .ok ("", []), .ok ([], "")⟩ =
      .ok ⟨⟨"9", "t", "video", "bob", "2021-01-01"⟩, none⟩ ∧
    itemAttachments c1cfg ⟨⟨"9", "t", "video", "bob", "2021-01-01"⟩, none⟩ = none ∧
    processItem c1cfg ⟨[], [], [], false⟩ ⟨⟨"9", "t", "video", "bob", "2021-01-01"⟩, none⟩ =
      ⟨[], [], [], false⟩ :=
  unknown_tag_no_body_skipped c1cfg ⟨[], [], [], false⟩
    ⟨"9", "t", "video", "bob", "2021-01-01"⟩ ⟨.ok ([], []), .ok ("", []), .ok ([], "")⟩
    (by decide) (by decide) (by decide)

/-! ## Scheduler lemmas -/

theorem runItems_append (cfg : Config) (l1 l2 : List Item) :
    ∀ st, runItems cfg st (l1 ++ l2) = runItems cfg (runItems cfg st l1) l2 := by
  induction l1 with
  | nil => intro st; rfl
  | cons it rest ih =>
    intro st
    rw [List.cons_append]
    show runItems cfg (processItem cfg st it) (rest ++ l2) = _
    rw [ih]
    rfl

theorem isProcessedB_elim (cfg : Config) (it : Item) (hp : isProcessedB cfg it = true) :
    ∃ urls text, itemAttachments cfg it = some (urls, text) ∧ urls ≠ [] := by
  unfold isProcessedB at hp
  cases hA : itemAttachments cfg it with
  | none => rw [hA] at hp; cases hp
  | some q =>
    obtain ⟨urls, text⟩ := q
    rw [hA] at hp
    refine ⟨urls, text, rfl, ?_⟩
    intro hnil
    subst hnil
    simp at hp

theorem processItem_of_not_processed (cfg : Config) (st : DPState) (it : Item)
    (h : isProcessedB cfg it = false) : processItem cfg st it = st := by
  unfold isProcessedB at h
  unfold processItem
  cases hA : itemAttachments cfg it with
  | none => rfl
  | some q =>
    obtain ⟨urls, text⟩ := q
    rw [hA] at h
    cases urls with
    | nil => simp
    | cons u us => simp at h

theorem processItem_of_processed (cfg : Config) (st : DPState) (it : Item)
    (urls : List String) (text : String)
    (hA : itemAttachments cfg it = some (urls, text)) (hne : urls ≠ []) :
    processItem cfg st it =
      { fs := writeText st.fs (itemDir cfg it) "info" (infoText it text)
        mkdirs := st.mkdirs ++ [itemDir cfg it]
        downloads := st.downloads ++ (collectTasks st.fs (itemDir cfg it) urls).2
        lastFetched := (collectTasks st.fs (itemDir cfg it) urls).1 == urls.length } := by
  unfold processItem
  rw [hA]
  have he : urls.isEmpty = false := by
    cases urls with
    | nil => exact absurd rfl hne
    | cons u us => rfl
  simp [he]

theorem collectTasks_all_present (fs : FS) (dir : String) (urls : List String)
    (h : ∀ u ∈ urls, presentFS fs (joinPath dir (baseName u)) = true) :
    collectTasks fs dir urls = (urls.length, []) := by
  induction urls with
  | nil => rfl
  | cons u us ih =>
    have hu := h u (List.mem_cons_self u us)
    have hrest := ih fun v hv => h v (List.mem_cons_of_mem u hv)
    simp [collectTasks, hu, hrest]

theorem collectTasks_cover (fs : FS) (dir : String) (urls : List String) :
    ∀ u ∈ urls, presentFS fs (joinPath dir (baseName u)) = true ∨
      (⟨dir, baseName u, u⟩ : DLTask) ∈ (collectTasks fs dir urls).2 := by
  induction urls with
  | nil => intro u hu; cases hu
  | cons v vs ih =>
    intro u hu
    rcases List.mem_cons.mp hu with h | h
    · subst h
      by_cases hp : presentFS fs (joinPath dir (baseName u)) = true
      · exact Or.inl hp
      · have hp' : presentFS fs (joinPath dir (baseName u)) = false := by
          cases hx : presentFS fs (joinPath dir (baseName u)) with
          | false => rfl
          | true => exact absurd hx hp
        right
        simp [collectTasks, hp']
    · rcases ih u h with hp | hm
      · exact Or.inl hp
      · right
        cases hx : presentFS fs (joinPath dir (baseName v)) with
        | true => simp [collectTasks, hx, hm]
        | false => simp [collectTasks, hx, hm]

theorem collectTasks_no_tasks (fs : FS) (dir : String) (urls : List String)
    (h : (collectTasks fs dir urls).2 = []) :
    (collectTasks fs dir urls).1 = urls.length := by
  induction urls with
  | nil => rfl
  | cons u us ih =>
    cases hx : presentFS fs (joinPath dir (baseName u)) with
    | true =>
      unfold collectTasks at h ⊢
      simp [hx] at h ⊢
      exact ih h
    | false =>
      unfold collectTasks at h
      simp [hx] at h

theorem presentFS_writeText_mono (fs : FS) (dir file text p : String)
    (h : presentFS fs p = true) : presentFS (writeText fs dir file text) p = true := by
  unfold writeText
  split
  · exact h
  · exact presentFS_setFS_mono _ _ _ _ h

theorem presentFS_writeText_self (fs : FS) (dir file text : String) :
    presentFS (writeText fs dir file text) (joinPath dir file) = true := by
  unfold writeText
  split
  · assumption
  · exact presentFS_setFS_self _ _ _

theorem presentFS_processItem_mono (cfg : Config) (st : DPState) (it : Item) (p : String)
    (h : presentFS st.fs p = true) : presentFS (processItem cfg st it).fs p = true := by
  by_cases hp : isProcessedB cfg it = true
  · obtain ⟨urls, text, hA, hne⟩ := isProcessedB_elim cfg it hp
    rw [processItem_of_processed cfg st it urls text hA hne]
    exact presentFS_writeText_mono _ _ _ _ _ h
  · rw [processItem_of_not_processed cfg st it (by
      cases hx : isProcessedB cfg it with
      | false => rfl
      | true => exact absurd hx hp)]
    exact h

theorem presentFS_runItems_mono (cfg : Config) (items : List Item) :
    ∀ st p, presentFS st.fs p = true → presentFS (runItems cfg st items).fs p = true := by
  induction items with
  | nil => intro st p h; exact h
  | cons it rest ih =>
    intro st p h
    exact ih _ p (presentFS_processItem_mono cfg st it p h)

theorem processItem_downloads_prefix (cfg : Config) (st : DPState) (it : Item) :
    ∃ ts, (processItem cfg st it).downloads = st.downloads ++ ts := by
  by_cases hp : isProcessedB cfg it = true
  · obtain ⟨urls, text, hA, hne⟩ := isProcessedB_elim cfg it hp
    rw [processItem_of_processed cfg st it urls text hA hne]
    exact ⟨_, rfl⟩
  · rw [processItem_of_not_processed cfg st it (by
      cases hx : isProcessedB cfg it with
      | false => rfl
      | true => exact absurd hx hp)]
    exact ⟨[], (List.append_nil _).symm⟩

theorem runItems_downloads_prefix (cfg : Config) (items : List Item) :
    ∀ st, ∃ ts, (runItems cfg st items).downloads = st.downloads ++ ts := by
  induction items with
  | nil => intro st; exact ⟨[], (List.append_nil _).symm⟩
  | cons it rest ih =>
    intro st
    obtain ⟨ts1, h1⟩ := processItem_downloads_prefix cfg st it
    obtain ⟨ts2, h2⟩ := ih (processItem cfg st it)
    exact ⟨ts1 ++ ts2, by
      show (runItems cfg (processItem cfg st it) rest).downloads = _
      rw [h2, h1, List.append_assoc]⟩

/-- A target path is covered by a scheduler state: the file is already on
disk, or a dispatched task will write it. -/
def covered (st : DPState) (p : String) : Prop :=
  presentFS st.fs p = true ∨ ∃ d ∈ st.downloads, joinPath d.dir d.name = p

/-- Every attachment target of the item is covered and its info file is
on disk (trivially so for items the scheduler skips). -/
def itemCovered (cfg : Config) (st : DPState) (it : Item) : Prop :=
  ∀ urls text, itemAttachments cfg it = some (urls, text) → urls ≠ [] →
    (∀ u ∈ urls, covered st (joinPath (itemDir cfg it) (baseName u))) ∧
    presentFS st.fs (joinPath (itemDir cfg it) "info") = true

/-- Every attachment file of the item and its info file are on disk
(trivially so for items the scheduler skips). -/
def itemSynced (cfg : Config) (fs : FS) (it : Item) : Prop :=
  ∀ urls text, itemAttachments cfg it = some (urls, text) → urls ≠ [] →
    (∀ u ∈ urls, presentFS fs (joinPath (itemDir cfg it) (baseName u)) = true) ∧
    presentFS fs (joinPath (itemDir cfg it) "info") = true

theorem covered_processItem_mono (cfg : Config) (st : DPState) (it : Item) (p : String)
    (h : covered st p) : covered (processItem cfg st it) p := by
  rcases h with h | ⟨d, hd, hp⟩
  · exact Or.inl (presentFS_processItem_mono cfg st it p h)
  · obtain ⟨ts, hts⟩ := processItem_downloads_prefix cfg st it
    exact Or.inr ⟨d, by rw [hts]; exact List.mem_append_left _ hd, hp⟩

theorem itemCovered_processItem_mono (cfg : Config) (st : DPState) (it0 it : Item)
    (h : itemCovered cfg st it0) : itemCovered cfg (processItem cfg st it) it0 := by
  intro urls text hA hne
  obtain ⟨h1, h2⟩ := h urls text hA hne
  exact ⟨fun u hu => covered_processItem_mono _ _ _ _ (h1 u hu),
    presentFS_processItem_mono _ _ _ _ h2⟩

theorem itemCovered_runItems_mono (cfg : Config) (items : List Item) :
    ∀ st it0, itemCovered cfg st it0 → itemCovered cfg (runItems cfg st items) it0 := by
  induction items with
  | nil => intro st it0 h; exact h
  | cons it rest ih =>
    intro st it0 h
    exact ih _ it0 (itemCovered_processItem_mono cfg st it0 it h)

theorem processItem_covers_self (cfg : Config) (st : DPState) (it : Item) :
    itemCovered cfg (processItem cfg st it) it := by
  intro urls text hA hne
  rw [processItem_of_processed cfg st it urls text hA hne]
  constructor
  · intro u hu
    rcases collectTasks_cover st.fs (itemDir cfg it) urls u hu with hp | hm
    · exact Or.inl (presentFS_writeText_mono _ _ _ _ _ hp)
    · exact Or.inr ⟨⟨itemDir cfg it, baseName u, u⟩, List.mem_append_right _ hm, rfl⟩
  · exact presentFS_writeText_self _ _ _ _

theorem runItems_covers (cfg : Config) (items : List Item) :
    ∀ st it, it ∈ items → itemCovered cfg (runItems cfg st items) it := by
  induction items with
  | nil => intro st it h; cases h
  | cons hd rest ih =>
    intro st it h
    rcases List.mem_cons.mp h with h | h
    · subst h
      exact itemCovered_runItems_mono cfg rest _ it (processItem_covers_self cfg st it)
    · exact ih _ it h

theorem presentFS_applyDownloads_mono (net : Net) (dls : List DLTask) :
    ∀ fs p, presentFS fs p = true → presentFS (applyDownloads net dls fs) p = true := by
  induction dls with
  | nil => intro fs p h; exact h
  | cons d rest ih =>
    intro fs p h
    cases hx : lookupFS net d.url with
    | none =>
      simp only [applyDownloads, hx]
      exact ih fs p h
    | some content =>
      simp only [applyDownloads, hx]
      exact ih _ p (presentFS_setFS_mono _ _ _ _ h)

theorem applyDownloads_covers (net : Net) (dls : List DLTask) :
    ∀ fs d, d ∈ dls → (∀ e ∈ dls, (lookupFS net e.url).isSome = true) →
      presentFS (applyDownloads net dls fs) (joinPath d.dir d.name) = true := by
  induction dls with
  | nil => intro fs d h _; cases h
  | cons e rest ih =>
    intro fs d h hnet
    have he : (lookupFS net e.url).isSome = true := hnet e (List.mem_cons_self e rest)
    obtain ⟨content, hc⟩ : ∃ c, lookupFS net e.url = some c := by
      cases hx : lookupFS net e.url with
      | none => rw [hx] at he; cases he
      | some c => exact ⟨c, rfl⟩
    rcases List.mem_cons.mp h with h | h
    · subst h
      simp only [applyDownloads, hc]
      exact presentFS_applyDownloads_mono net rest _ _ (presentFS_setFS_self _ _ _)
    · simp only [applyDownloads, hc]
      exact ih _ d h fun x hx => hnet x (List.mem_cons_of_mem _ hx)

theorem runItems_synced (cfg : Config) (items : List Item) :
    ∀ st, (∀ it ∈ items, itemSynced cfg st.fs it) →
      (runItems cfg st items).fs = st.fs ∧
      (runItems cfg st items).downloads = st.downloads ∧
      (runItems cfg st items).lastFetched =
        (st.lastFetched || items.any (isProcessedB cfg)) := by
  induction items with
  | nil => intro st h; simp [runItems]
  | cons it rest ih =>
    intro st h
    by_cases hp : isProcessedB cfg it = true
    · obtain ⟨urls, text, hA, hne⟩ := isProcessedB_elim cfg it hp
      obtain ⟨hall, hinfo⟩ := h it (List.mem_cons_self it rest) urls text hA hne
      have hct := collectTasks_all_present st.fs (itemDir cfg it) urls hall
      have hwt : writeText st.fs (itemDir cfg it) "info" (infoText it text) = st.fs := by
        unfold writeText
        simp [hinfo]
      have hstep : processItem cfg st it =
          { fs := st.fs, mkdirs := st.mkdirs ++ [itemDir cfg it],
            downloads := st.downloads, lastFetched := true } := by
        rw [processItem_of_processed cfg st it urls text hA hne, hct, hwt]
        simp
      have hrest : ∀ it2 ∈ rest, itemSynced cfg st.fs it2 :=
        fun it2 h2 => h it2 (List.mem_cons_of_mem _ h2)
      obtain ⟨f2, d2, l2⟩ :=
        ih { fs := st.fs, mkdirs := st.mkdirs ++ [itemDir cfg it],
             downloads := st.downloads, lastFetched := true } hrest
      refine ⟨?_, ?_, ?_⟩
      · show (runItems cfg (processItem cfg st it) rest).fs = st.fs
        rw [hstep]
        exact f2
      · show (runItems cfg (processItem cfg st it) rest).downloads = st.downloads
        rw [hstep]
        exact d2
      · show (runItems cfg (processItem cfg st it) rest).lastFetched = _
        rw [hstep, l2]
        simp [hp]
    · have hp' : isProcessedB cfg it = false := by
        cases hx : isProcessedB cfg it with
        | false => rfl
        | true => exact absurd hx hp
      have hstep := processItem_of_not_processed cfg st it hp'
      have hrest : ∀ it2 ∈ rest, itemSynced cfg st.fs it2 :=
        fun it2 h2 => h it2 (List.mem_cons_of_mem _ h2)
      obtain ⟨f2, d2, l2⟩ := ih st hrest
      refine ⟨?_, ?_, ?_⟩
      · show (runItems cfg (processItem cfg st it) rest).fs = st.fs
        rw [hstep]
        exact f2
      · show (runItems cfg (processItem cfg st it) rest).downloads = st.downloads
        rw [hstep]
        exact d2
      · show (runItems cfg (processItem cfg st it) rest).lastFetched = _
        rw [hstep, l2]
        simp [hp']

theorem runItems_no_dispatch (cfg : Config) (items : List Item) :
    ∀ st, (runItems cfg st items).downloads = st.downloads →
      (runItems cfg st items).lastFetched =
        (st.lastFetched || items.any (isProcessedB cfg)) := by
  induction items with
  | nil => intro st h; simp [runItems]
  | cons it rest ih =>
    intro st h
    by_cases hp : isProcessedB cfg it = true
    · obtain ⟨urls, text, hA, hne⟩ := isProcessedB_elim cfg it hp
      have hstep := processItem_of_processed cfg st it urls text hA hne
      have h' : (runItems cfg (processItem cfg st it) rest).downloads = st.downloads := h
      obtain ⟨ts, hts⟩ := runItems_downloads_prefix cfg rest (processItem cfg st it)
      rw [hts, hstep] at h'
      simp only [List.append_assoc] at h'
      have hlen := congrArg List.length h'
      simp only [List.length_append] at hlen
      have hct2 : (collectTasks st.fs (itemDir cfg it) urls).2 = [] :=
        List.length_eq_zero.mp (by omega)
      have hts2 : ts = [] := List.length_eq_zero.mp (by omega)
      have hct1 := collectTasks_no_tasks st.fs (itemDir cfg it) urls hct2
      have hlast : (processItem cfg st it).lastFetched = true := by
        rw [hstep]
        simp [hct1]
      have hdl : (runItems cfg (processItem cfg st it) rest).downloads =
          (processItem cfg st it).downloads := by
        rw [hts, hts2, List.append_nil]
      have := ih (processItem cfg st it) hdl
      show (runItems cfg (processItem cfg st it) rest).lastFetched = _
      rw [this, hlast]
      simp [hp]
    · have hp' : isProcessedB cfg it = false := by
        cases hx : isProcessedB cfg it with
        | false => rfl
        | true => exact absurd hx hp
      have hstep := processItem_of_not_processed cfg st it hp'
      have h' : (runItems cfg (processItem cfg st it) rest).downloads = st.downloads := h
      rw [hstep] at h'
      have := ih st h'
      show (runItems cfg (processItem cfg st it) rest).lastFetched = _
      rw [hstep, this]
      simp [hp']

theorem runItems_singleton (cfg : Config) (st : DPState) (x : Item) :
    runItems cfg st [x] = processItem cfg st x := rfl

/-- The single-image item of the C3/C5 scenarios; its one attachment is
initially absent from the filesystem. -/
def c3item : Item :=
  ⟨⟨"5", "t", "image", "alice", "2021-01-01"⟩,
    some (.image "cap" [⟨"i1", "png", "https://x/a.png"⟩])⟩

/-- A trailing article item, which `downloadPage` skips. -/
def c3article : Item :=
  ⟨⟨"6", "u", "article", "alice", "2021-01-02"⟩, some (.article [] [])⟩

/-- The two-item page whose last item is the skipped article. -/
def c3page : Page := ⟨⟨[c3item, c3article], ""⟩⟩

/-- C3 (counterexample): `lastFetched` is not the completeness value of
the page's last item alone: here the last item is an attachment-less
article (all of its attachment files are vacuously present) while
`downloadPage` reports `false`, carried over from the unfetched image
item before it. -/
theorem lastFetched_not_last_item :
    (downloadPage c1cfg [] c3page).lastFetched = false ∧
    specLastItemComplete c1cfg [] c3page = true := by
  decide

theorem runItems_all_skipped (cfg : Config) (items : List Item) :
    ∀ st, (∀ j ∈ items, isProcessedB cfg j = false) → runItems cfg st items = st := by
  induction items with
  | nil => intro st _; rfl
  | cons it rest ih =>
    intro st h
    show runItems cfg (processItem cfg st it) rest = st
    rw [processItem_of_not_processed cfg st it (h it (List.mem_cons_self it rest))]
    exact ih st fun j hj => h j (List.mem_cons_of_mem _ hj)

/-- C3 (amended): for every page, `lastFetched` is the completeness value
of the last *processed* item — the last one yielding a nonempty URL
list — evaluated against the filesystem at that item's turn: however many
trailing items yield no URLs, they leave it unchanged; and it is `false`
when no item of the page yields URLs. -/
theorem lastFetched_from_last_processed (cfg : Config) (fs : FS) (pg : Page) :
    (∀ pre it post urls text, pg.body.items = pre ++ it :: post →
      itemAttachments cfg it = some (urls, text) → urls ≠ [] →
      (∀ j ∈ post, isProcessedB cfg j = false) →
      (downloadPage cfg fs pg).lastFetched =
        ((collectTasks (runItems cfg ⟨fs, [], [], false⟩ pre).fs (itemDir cfg it) urls).1 ==
          urls.length)) ∧
    ((∀ j ∈ pg.body.items, isProcessedB cfg j = false) →
      (downloadPage cfg fs pg).lastFetched = false) := by
  constructor
  · intro pre it post urls text hsplit hA hne hpost
    unfold downloadPage
    rw [hsplit]
    rw [show pre ++ it :: post = (pre ++ [it]) ++ post by simp]
    rw [runItems_append, runItems_all_skipped cfg post _ hpost,
      runItems_append, runItems_singleton,
      processItem_of_processed cfg _ it urls text hA hne]
  · intro h
    unfold downloadPage
    rw [runItems_all_skipped cfg pg.body.items _ h]

theorem lastFetched_from_last_processed_witness :
    ((downloadPage c1cfg [] ⟨⟨[c3item, c3article, c3article], "w"⟩⟩).lastFetched =
      ((collectTasks (runItems c1cfg ⟨[], [], [], false⟩ []).fs (itemDir c1cfg c3item)
          ["https://x/a.png"]).1 == (["https://x/a.png"] : List String).length)) ∧
    (downloadPage c1cfg [] ⟨⟨[c3article], "x"⟩⟩).lastFetched = false :=
  ⟨(lastFetched_from_last_processed c1cfg [] ⟨⟨[c3item, c3article, c3article], "w"⟩⟩).1
      [] c3item [c3article, c3article] ["https://x/a.png"] "cap" rfl rfl (by decide)
      (by decide),
    (lastFetched_from_last_processed c1cfg [] ⟨⟨[c3article], "x"⟩⟩).2 (by decide)⟩

/-- The filesystem after one `downloadPage` run and the completion of all
the downloads it dispatched. -/
def fsAfterRun (cfg : Config) (net : Net) (fs0 : FS) (pg : Page) : FS :=
  applyDownloads net (downloadPage cfg fs0 pg).downloads (downloadPage cfg fs0 pg).fs

/-- The one-item page of the idempotence scenario. -/
def c5page : Page := ⟨⟨[c3item], ""⟩⟩

/-- The network of the idempotence scenario: the one attachment resolves. -/
def c5net : Net := [("https://x/a.png", "IMG")]

/-- C5 (counterexample): with the lone attachment absent beforehand, the
first run dispatches one download and reports `lastFetched = false`; the
second run over the completed filesystem performs zero writes but
reports `true` — not the same value as the first run. -/
theorem second_run_lastFetched_differs :
    (downloadPage c1cfg [] c5page).lastFetched = false ∧
    (downloadPage c1cfg (fsAfterRun c1cfg c5net [] c5page) c5page).downloads = [] ∧
    (downloadPage c1cfg (fsAfterRun c1cfg c5net [] c5page) c5page).lastFetched = true := by
  decide

/-- C5 (amended): a second `downloadPage` run over the filesystem left by
a first run whose dispatched downloads all completed performs zero
additional writes — it dispatches no download and rewrites no info file —
and its `lastFetched` is `true` exactly when the page has a processed
item; that value agrees with the first run's whenever the first run
itself dispatched nothing (an already-synced state). -/
theorem downloadPage_idempotent (cfg : Config) (net : Net) (fs0 : FS) (pg : Page)
    (hnet : ∀ d ∈ (downloadPage cfg fs0 pg).downloads, (lookupFS net d.url).isSome = true) :
    (downloadPage cfg (fsAfterRun cfg net fs0 pg) pg).downloads = [] ∧
    (downloadPage cfg (fsAfterRun cfg net fs0 pg) pg).fs = fsAfterRun cfg net fs0 pg ∧
    (downloadPage cfg (fsAfterRun cfg net fs0 pg) pg).lastFetched =
      pg.body.items.any (isProcessedB cfg) ∧
    ((downloadPage cfg fs0 pg).downloads = [] →
      (downloadPage cfg (fsAfterRun cfg net fs0 pg) pg).lastFetched =
        (downloadPage cfg fs0 pg).lastFetched) := by
  have hsync : ∀ it ∈ pg.body.items, itemSynced cfg (fsAfterRun cfg net fs0 pg) it := by
    intro it hit urls text hA hne
    obtain ⟨hcov1, hcov2⟩ :=
      runItems_covers cfg pg.body.items ⟨fs0, [], [], false⟩ it hit urls text hA hne
    constructor
    · intro u hu
      rcases hcov1 u hu with hp | ⟨d, hd, hjp⟩
      · exact presentFS_applyDownloads_mono net _ _ _ hp
      · rw [← hjp]
        exact applyDownloads_covers net _ _ d hd hnet
    · exact presentFS_applyDownloads_mono net _ _ _ hcov2
  obtain ⟨hf, hd, hl⟩ :=
    runItems_synced cfg pg.body.items ⟨fsAfterRun cfg net fs0 pg, [], [], false⟩ hsync
  refine ⟨hd, hf, ?_, ?_⟩
  · show (runItems cfg ⟨fsAfterRun cfg net fs0 pg, [], [], false⟩ pg.body.items).lastFetched = _
    rw [hl]
    simp
  intro hnil
  have hr1 := runItems_no_dispatch cfg pg.body.items ⟨fs0, [], [], false⟩ hnil
  show (runItems cfg ⟨fsAfterRun cfg net fs0 pg, [], [], false⟩ pg.body.items).lastFetched =
    (runItems cfg ⟨fs0, [], [], false⟩ pg.body.items).lastFetched
  rw [hl, hr1]

theorem downloadPage_idempotent_witness :
    (downloadPage c1cfg (fsAfterRun c1cfg c5net [] c5page) c5page).downloads = [] ∧
    (downloadPage c1cfg (fsAfterRun c1cfg c5net [] c5page) c5page).fs =
      fsAfterRun c1cfg c5net [] c5page ∧
    (downloadPage c1cfg (fsAfterRun c1cfg c5net [] c5page) c5page).lastFetched =
      c5page.body.items.any (isProcessedB c1cfg) ∧
    ((downloadPage c1cfg [] c5page).downloads = [] →
      (downloadPage c1cfg (fsAfterRun c1cfg c5net [] c5page) c5page).lastFetched =
        (downloadPage c1cfg [] c5page).lastFetched) :=
  downloadPage_idempotent c1cfg c5net [] c5page (by decide)

end Fanbox
